import Mathlib

/-!
# Verification of the console core of `bevy_console`

Shallow embedding of the command dispatch engine, session state machine and
toggle detector from `src/console.rs` and `src/ui.rs`, together with proofs of
the specified properties.

Conventions:
* `StyledStr` values are represented by their text content as `String`.
* The `BTreeMap<&str, clap::Command>` command registry is represented by its
  key list (`List String`); `config.commands.get(name).is_some()` becomes list
  membership.
* Fallible operations (`unwrap` in the Rust source) return `Option`: a `none`
  result models a panic.
-/

namespace BevyConsole

/-! ## Tokenizer (models the `shlex` crate used by `console_ui`) -/

/-- Whitespace characters recognised by the `shlex` lexer. -/
def isShWs (c : Char) : Bool :=
  c = ' ' || c = '\t' || c = '\n'

/-- Lex the body of a single-quoted section: everything up to the closing
quote is literal.  `none` models the lexing error on an unterminated quote. -/
def parseSingleQuoted : List Char → Option (List Char × List Char)
  | [] => none
  | c :: cs =>
    if c = '\'' then some ([], cs)
    else (parseSingleQuoted cs).map fun p => (c :: p.1, p.2)

/-- Lex the body of a double-quoted section with shell-style backslash
escapes.  `none` models the lexing error on an unterminated quote. -/
def parseDoubleQuoted : List Char → Option (List Char × List Char)
  | [] => none
  | '"' :: cs => some ([], cs)
  | '\\' :: [] => none
  | '\\' :: c :: cs =>
    if c = '$' || c = '`' || c = '"' || c = '\\' then
      (parseDoubleQuoted cs).map fun p => (c :: p.1, p.2)
    else if c = '\n' then parseDoubleQuoted cs
    else (parseDoubleQuoted cs).map fun p => ('\\' :: c :: p.1, p.2)
  | c :: cs => (parseDoubleQuoted cs).map fun p => (c :: p.1, p.2)

/-- Lex one word (token): characters up to unquoted whitespace, honouring
quoting and backslash escapes.  Fuel-indexed; the callers supply enough fuel
(the input length bounds the recursion depth). -/
def parseWordFuel : Nat → List Char → Option (List Char × List Char)
  | 0, _ => none
  | _ + 1, [] => some ([], [])
  | fuel + 1, c :: cs =>
    if isShWs c then some ([], cs)
    else if c = '\\' then
      match cs with
      | [] => none
      | c2 :: cs2 =>
        if c2 = '\n' then parseWordFuel fuel cs2
        else (parseWordFuel fuel cs2).map fun p => (c2 :: p.1, p.2)
    else if c = '\'' then
      match parseSingleQuoted cs with
      | none => none
      | some (w, r) => (parseWordFuel fuel r).map fun p => (w ++ p.1, p.2)
    else if c = '"' then
      match parseDoubleQuoted cs with
      | none => none
      | some (w, r) => (parseWordFuel fuel r).map fun p => (w ++ p.1, p.2)
    else (parseWordFuel fuel cs).map fun p => (c :: p.1, p.2)

/-- The token stream: skip whitespace and `#` comments, then lex words until
the input ends or a lexing error stops the iterator (matching `Shlex`, whose
iterator yields `None` and sets `had_error` on malformed input). -/
def shlexTokens : Nat → List Char → List String
  | 0, _ => []
  | _ + 1, [] => []
  | fuel + 1, c :: cs =>
    if isShWs c then shlexTokens fuel cs
    else if c = '#' then shlexTokens fuel (cs.dropWhile (· ≠ '\n'))
    else
      match parseWordFuel (cs.length + 2) (c :: cs) with
      | none => []
      | some (w, r) => String.mk w :: shlexTokens fuel r

/-- `Shlex::new(s).collect::<Vec<_>>()`. -/
def shlex (s : String) : List String :=
  shlexTokens (s.length + 1) s.data

/-! ## Data model -/

/-- `ToggleConsoleKey` (`src/console.rs`).  Key codes are abstracted to the
bevy variants exercised in this development plus a catch-all. -/
inductive KeyCode where
  | Grave
  | A
  | L
  | ControlLeft
  | ControlRight
  | Other (code : Nat)
deriving DecidableEq, Repr

/-- `bevy::input::ButtonState`. -/
inductive ButtonState where
  | Pressed
  | Released
deriving DecidableEq, Repr

/-- `ButtonState::is_pressed`. -/
def ButtonState.is_pressed : ButtonState → Bool
  | .Pressed => true
  | .Released => false

/-- Key for toggling the console (`src/console.rs`). -/
inductive ToggleConsoleKey where
  | KeyCode (k : KeyCode)
  | ScanCode (c : Nat)
deriving DecidableEq, Repr

/-- `bevy::input::keyboard::KeyboardInput` (the fields `console_key_pressed`
reads; the window entity is irrelevant to the logic). -/
structure KeyboardInput where
  scan_code : Nat
  key_code : Option KeyCode
  state : ButtonState
deriving DecidableEq, Repr

/-- Console configuration (`src/console.rs`); `commands` is the key list of
the registry `BTreeMap`, and the floating-point geometry fields are omitted
as they never influence the dispatch logic. -/
structure ConsoleConfiguration where
  keys : List ToggleConsoleKey
  commands : List String
  history_size : Nat
  symbol : String
deriving Repr

/-- Parsed raw console command (`ConsoleCommandEntered` in `src/console.rs`). -/
structure ConsoleCommandEntered where
  command_name : String
  args : List String
deriving DecidableEq, Repr

/-- `ConsoleState` (`src/console.rs`): edit buffer, scrollback log, history
ring (front element is index 0) and history cursor. -/
structure ConsoleState where
  buf : String
  scrollback : List String
  history : List String
  history_index : Nat
deriving DecidableEq, Repr

/-- `ConsoleState::default`: empty buffer and scrollback, a single scratch
entry in the history, cursor 0. -/
def ConsoleState.default : ConsoleState :=
  { buf := "", scrollback := [], history := [""], history_index := 0 }

/-- `s.trim().is_empty()` from the source: `str::trim` strips whitespace from
both ends, and the result is empty exactly when every character of `s` is
whitespace. -/
def trimIsEmpty (s : String) : Bool :=
  s.data.all Char.isWhitespace

/-! ## Dispatch engine: the submit path of `console_ui` (`src/ui.rs` 88-126)

When Enter is hit on the text edit: a blank line is echoed for blank input;
otherwise the line is echoed with the prompt symbol, pushed into the history
ring (with eviction beyond `history_size + 1`), tokenized, resolved against
the registry (emitting `ConsoleCommandEntered` or an inline error) and the
edit buffer is cleared.  `VecDeque::insert(1, _)` maps to `List.insertIdx 1`;
the history is never empty in reachable states (proved below) so the index is
always in range and the two agree. -/

def submit (config : ConsoleConfiguration) (state : ConsoleState) :
    ConsoleState × List ConsoleCommandEntered :=
  if trimIsEmpty state.buf then
    ({ state with scrollback := state.scrollback ++ [""] }, [])
  else
    let msg := config.symbol ++ state.buf
    let scrollback1 := state.scrollback ++ [msg]
    let history1 := state.history.insertIdx 1 state.buf
    let history2 :=
      if history1.length > config.history_size + 1 then history1.dropLast
      else history1
    match shlex state.buf with
    | [] =>
      ({ state with scrollback := scrollback1, history := history2, buf := "" }, [])
    | command_name :: args =>
      if config.commands.contains command_name then
        ({ state with scrollback := scrollback1, history := history2, buf := "" },
          [{ command_name := command_name, args := args }])
      else
        ({ state with
            scrollback := scrollback1 ++ ["error: Invalid command"],
            history := history2, buf := "" }, [])

/-- Type a raw line into the edit buffer and submit it; used to state
multi-submission properties. -/
def submitLine (config : ConsoleConfiguration) (state : ConsoleState)
    (line : String) : ConsoleState :=
  (submit config { state with buf := line }).1

/-- Submit a sequence of raw lines in order. -/
def submitLines (config : ConsoleConfiguration) (state : ConsoleState)
    (lines : List String) : ConsoleState :=
  lines.foldl (submitLine config) state

/-! ## History navigation (`src/ui.rs` 137-161) -/

/-- ArrowUp with the text edit focused.  `none` models the `unwrap` panics of
`history.get_mut(0)` / `history.get(history_index)`. -/
def navigateUp (state : ConsoleState) : Option ConsoleState :=
  if state.history.length > 1 ∧ state.history_index < state.history.length - 1 then
    let history1 :=
      if state.history_index = 0 ∧ ¬trimIsEmpty state.buf then
        state.history.set 0 state.buf
      else state.history
    match history1.get? (state.history_index + 1) with
    | none => none
    | some previous_item =>
      some { state with
              history := history1,
              history_index := state.history_index + 1,
              buf := previous_item }
  else some state

/-- ArrowDown with the text edit focused.  `none` models the `unwrap` panic of
`history.get(history_index)`. -/
def navigateDown (state : ConsoleState) : Option ConsoleState :=
  if state.history_index > 0 then
    match state.history.get? (state.history_index - 1) with
    | none => none
    | some next_item =>
      some { state with
              history_index := state.history_index - 1,
              buf := next_item }
  else some state

/-- One navigation key press: `true` is ArrowUp, `false` is ArrowDown. -/
def navStep : Bool → ConsoleState → Option ConsoleState
  | true, state => navigateUp state
  | false, state => navigateDown state

/-- A sequence of navigation key presses. -/
def navSeq : List Bool → ConsoleState → Option ConsoleState
  | [], state => some state
  | b :: bs, state => (navStep b state).bind (navSeq bs)

/-- `receive_console_line` (`src/console.rs` 321-329): drain the queued
`PrintConsoleLine` events into the scrollback in emission order. -/
def receive_console_line (lines : List String) (state : ConsoleState) :
    ConsoleState :=
  { state with scrollback := state.scrollback ++ lines }

/-! ## Toggle detector (`src/ui.rs` 28-36 and 170-197) -/

/-- `console_key_pressed`: `true` iff the event is a press and matches one of
the configured toggle keys by key code or scan code. -/
def console_key_pressed (keyboard_input : KeyboardInput)
    (configured_keys : List ToggleConsoleKey) : Bool :=
  if !keyboard_input.state.is_pressed then false
  else
    configured_keys.any fun configured_key =>
      match configured_key with
      | .KeyCode configured_key_code =>
        match keyboard_input.key_code with
        | none => false
        | some pressed_key => configured_key_code = pressed_key
      | .ScanCode configured_scan_code =>
        keyboard_input.scan_code = configured_scan_code

/-- The open/close toggle of `console_ui` (lines 28-36): the flag flips when
some event of the pass matches a trigger and either the console is already
open or no other widget wants keyboard input
(`ctx.wants_keyboard_input()` is the `wants_keyboard_input` argument). -/
def toggle_console (keyboard_input_events : List KeyboardInput)
    (config_keys : List ToggleConsoleKey) (wants_keyboard_input : Bool)
    (console_is_open : Bool) : Bool :=
  let pressed :=
    keyboard_input_events.any fun code => console_key_pressed code config_keys
  if pressed && (console_is_open || !wants_keyboard_input) then !console_is_open
  else console_is_open

/-- Spec-side description of a trigger match (matches "by keycode or
scancode" in the specification); the refinement target compared with
`console_key_pressed`. -/
def matchesTrigger (ki : KeyboardInput) : ToggleConsoleKey → Prop
  | .KeyCode k => ki.key_code = some k
  | .ScanCode c => ki.scan_code = c

/-! ## Command handler binding (`ConsoleCommand::get_param`,
`src/console.rs` 126-174)

The clap parser pipeline is abstracted by its two stages as supplied
functions: `try_get_matches` (the `clap::Command::try_get_matches_from` call)
and `from_arg_matches` (`T::from_arg_matches`); `render` is
`clap::Error::render`.  The binding scans this pass's `ConsoleCommandEntered`
events with `find_map`, processing the first event whose name equals the
command's registered name. -/

/-- The observable result of `get_param`: the one-shot command slot of the
`ConsoleCommand` system param, plus the `PrintConsoleLine` messages queued
while building it. -/
structure ConsoleCommandParam (E M T : Type) where
  command : Option (Except E T)
  printed : List String

def get_param {E M T : Type} (name : String) (render : E → String)
    (try_get_matches : List String → Except E M)
    (from_arg_matches : M → Except E T)
    (events : List ConsoleCommandEntered) : ConsoleCommandParam E M T :=
  match events.find? (fun ev => name == ev.command_name) with
  | none => { command := none, printed := [] }
  | some ev =>
    match try_get_matches ev.args with
    | .ok m => { command := some (from_arg_matches m), printed := [] }
    | .error err =>
      { command := some (.error err), printed := [render err] }

/-- `ConsoleCommand::take` (`mem::take` on the command slot): yields the slot
once; the slot left behind is empty. -/
def ConsoleCommandParam.take {E M T : Type} (c : ConsoleCommandParam E M T) :
    Option (Except E T) × ConsoleCommandParam E M T :=
  (c.command, { c with command := none })


/-! ## Helper lemmas about the submit path -/

/-- On non-blank input the submission clears the edit buffer, leaves the
cursor alone, and updates the history by insertion at index 1 with eviction
of the tail beyond the capacity. -/
theorem submit_fields (config : ConsoleConfiguration) (state : ConsoleState)
    (h : trimIsEmpty state.buf = false) :
    (submit config state).1.buf = "" ∧
    (submit config state).1.history =
      (if (state.history.insertIdx 1 state.buf).length > config.history_size + 1
       then (state.history.insertIdx 1 state.buf).dropLast
       else state.history.insertIdx 1 state.buf) ∧
    (submit config state).1.history_index = state.history_index := by
  cases hs : shlex state.buf with
  | nil => simp [submit, h, hs]
  | cons n as =>
    by_cases hc : n ∈ config.commands <;> simp [submit, h, hs, hc]

/-- Submission never grows the history past `history_size + 1`. -/
theorem submit_history_le (config : ConsoleConfiguration) (state : ConsoleState)
    (h : state.history.length ≤ config.history_size + 1) :
    (submit config state).1.history.length ≤ config.history_size + 1 := by
  by_cases hb : trimIsEmpty state.buf
  · simp [submit, hb, h]
  · obtain ⟨-, hh, -⟩ := submit_fields config state (by simpa using hb)
    rw [hh]
    split
    · next hgt =>
      have h1 := List.length_insertIdx_le_succ state.history state.buf 1
      simp [List.length_dropLast]
      omega
    · next hle => omega

/-! ## Claim theorems: the submit path -/

/-- C1: for every submitted line whose first token is not a key of the
command registry, dispatch appends `"error: Invalid command"` to the console
output and emits no `ConsoleCommandEntered` event. -/
theorem submit_unknown_command (config : ConsoleConfiguration)
    (state : ConsoleState) (name : String) (args : List String)
    (hblank : trimIsEmpty state.buf = false)
    (htok : shlex state.buf = name :: args)
    (hname : name ∉ config.commands) :
    (submit config state).2 = [] ∧
    (submit config state).1.scrollback =
      state.scrollback ++ [config.symbol ++ state.buf, "error: Invalid command"] := by
  simp [submit, hblank, htok, hname]

theorem submit_unknown_command_witness :
    (submit ⟨[], ["log"], 50, "> "⟩ ⟨"unknown_cmd x", [], [""], 0⟩).2 = [] ∧
    (submit ⟨[], ["log"], 50, "> "⟩ ⟨"unknown_cmd x", [], [""], 0⟩).1.scrollback =
      [] ++ ["> " ++ "unknown_cmd x", "error: Invalid command"] :=
  submit_unknown_command _ _ "unknown_cmd" ["x"] (by decide) (by decide) (by decide)

/-- C2: submitting a line containing only whitespace (or nothing) produces no
`ConsoleCommandEntered` event, appends exactly one blank line to the
scrollback, and leaves the history ring unchanged. -/
theorem submit_blank_line (config : ConsoleConfiguration) (state : ConsoleState)
    (h : trimIsEmpty state.buf = true) :
    (submit config state).2 = [] ∧
    (submit config state).1.scrollback = state.scrollback ++ [""] ∧
    (submit config state).1.history = state.history := by
  simp [submit, h]

theorem submit_blank_line_witness :
    (submit ⟨[], ["log"], 50, "> "⟩ ⟨"  ", ["old"], [""], 0⟩).2 = [] ∧
    (submit ⟨[], ["log"], 50, "> "⟩ ⟨"  ", ["old"], [""], 0⟩).1.scrollback =
      ["old"] ++ [""] ∧
    (submit ⟨[], ["log"], 50, "> "⟩ ⟨"  ", ["old"], [""], 0⟩).1.history = [""] :=
  submit_blank_line _ _ (by decide)

/-- C10: after submitting a non-whitespace line the edit buffer is cleared;
after submitting a whitespace-only line it is unchanged; and in both cases
the only session-state fields submission can modify are the scrollback, the
history, and the edit buffer (the history cursor is untouched). -/
theorem submit_frame_effects (config : ConsoleConfiguration)
    (state : ConsoleState) :
    (submit config state).1.history_index = state.history_index ∧
    (trimIsEmpty state.buf = true → (submit config state).1.buf = state.buf) ∧
    (trimIsEmpty state.buf = false → (submit config state).1.buf = "") := by
  by_cases h : trimIsEmpty state.buf
  · simp [submit, h]
  · have h' : trimIsEmpty state.buf = false := by simpa using h
    obtain ⟨hbuf, -, hidx⟩ := submit_fields config state h'
    exact ⟨hidx, fun hcontra => absurd hcontra (by simp [h']), fun _ => hbuf⟩

theorem submit_frame_effects_witness :
    (submit ⟨[], [], 50, "> "⟩ ⟨"hi", [], [""], 0⟩).1.history_index = 0 ∧
    (submit ⟨[], [], 50, "> "⟩ ⟨"hi", [], [""], 0⟩).1.buf = "" :=
  ⟨(submit_frame_effects ⟨[], [], 50, "> "⟩ ⟨"hi", [], [""], 0⟩).1,
    (submit_frame_effects ⟨[], [], 50, "> "⟩ ⟨"hi", [], [""], 0⟩).2.2 (by decide)⟩

/-- C3: over any sequence of submitted non-whitespace lines the history ring
never exceeds `history_size + 1` entries (insertion at index 1 with the
oldest tail entry evicted first), and with `history_size = 2` submitting
"a", "b", "c" leaves `["c", "b"]` after the scratch slot. -/
theorem history_capacity_fifo :
    (∀ (config : ConsoleConfiguration) (state : ConsoleState)
        (lines : List String),
        (∀ l ∈ lines, trimIsEmpty l = false) →
        state.history.length ≤ config.history_size + 1 →
        (submitLines config state lines).history.length ≤
          config.history_size + 1) ∧
    (submitLines ⟨[], [], 2, "> "⟩ ConsoleState.default
        ["a", "b", "c"]).history.drop 1 = ["c", "b"] := by
  constructor
  · intro config state lines
    induction lines generalizing state with
    | nil => intro _ h; simpa [submitLines] using h
    | cons l ls ih =>
      intro hws h
      have h1 : (submitLine config state l).history.length ≤
          config.history_size + 1 := by
        have := submit_history_le config { state with buf := l } (by simpa using h)
        simpa [submitLine] using this
      have := ih (submitLine config state l)
        (fun x hx => hws x (by simp [hx])) h1
      simpa [submitLines] using this
  · decide

theorem history_capacity_fifo_witness :
    (submitLines ⟨[], [], 2, "> "⟩ ConsoleState.default
        ["a", "b", "c"]).history.length ≤ 2 + 1 :=
  history_capacity_fifo.1 ⟨[], [], 2, "> "⟩ ConsoleState.default
    ["a", "b", "c"] (by decide) (by decide)

/-! ## Helper lemmas about history navigation -/

/-- The guard of the ArrowUp branch. -/
theorem navigateUp_guard_cases (s : ConsoleState) :
    (¬(s.history.length > 1 ∧ s.history_index < s.history.length - 1) ∧
      navigateUp s = some s) ∨
    ((s.history.length > 1 ∧ s.history_index < s.history.length - 1) ∧
      ∃ h1, (h1 = if s.history_index = 0 ∧ ¬trimIsEmpty s.buf
                  then s.history.set 0 s.buf else s.history) ∧
        ∃ item, h1.get? (s.history_index + 1) = some item ∧
          navigateUp s = some { s with history := h1,
                                       history_index := s.history_index + 1,
                                       buf := item }) := by
  by_cases hg : s.history.length > 1 ∧ s.history_index < s.history.length - 1
  · right
    refine ⟨hg, ?_⟩
    set h1 := if s.history_index = 0 ∧ ¬trimIsEmpty s.buf
              then s.history.set 0 s.buf else s.history with hh1
    have hlen : h1.length = s.history.length := by
      rw [hh1]; split <;> simp
    have hidx : s.history_index + 1 < h1.length := by omega
    refine ⟨h1, hh1, h1.get ⟨s.history_index + 1, hidx⟩, List.get?_eq_get hidx, ?_⟩
    unfold navigateUp
    rw [if_pos hg, ← hh1]
    simp [List.getElem?_eq_getElem hidx]
  · left
    refine ⟨hg, ?_⟩
    unfold navigateUp
    rw [if_neg hg]

/-- The guard of the ArrowDown branch. -/
theorem navigateDown_guard_cases (s : ConsoleState)
    (hinv : s.history_index < s.history.length) :
    (s.history_index = 0 ∧ navigateDown s = some s) ∨
    (s.history_index > 0 ∧
      ∃ item, s.history.get? (s.history_index - 1) = some item ∧
        navigateDown s = some { s with history_index := s.history_index - 1,
                                       buf := item }) := by
  by_cases hg : s.history_index > 0
  · right
    have hidx : s.history_index - 1 < s.history.length := by omega
    refine ⟨hg, s.history.get ⟨s.history_index - 1, hidx⟩,
      List.get?_eq_get hidx, ?_⟩
    unfold navigateDown
    rw [if_pos hg, List.get?_eq_get hidx]
  · left
    have h0 : s.history_index = 0 := by omega
    refine ⟨h0, ?_⟩
    unfold navigateDown
    rw [if_neg hg]

/-- ArrowUp preserves the cursor invariant and the history length, and never
panics. -/
theorem navigateUp_safe (s : ConsoleState)
    (hinv : s.history_index < s.history.length) :
    ∃ s', navigateUp s = some s' ∧
      s'.history_index < s'.history.length ∧
      s'.history.length = s.history.length := by
  rcases navigateUp_guard_cases s with ⟨-, heq⟩ | ⟨hg, h1, hh1, item, hget, heq⟩
  · exact ⟨s, heq, hinv, rfl⟩
  · refine ⟨_, heq, ?_, ?_⟩ <;>
      · simp only []
        have hlen : h1.length = s.history.length := by
          rw [hh1]; split <;> simp
        omega

/-- ArrowDown preserves the cursor invariant and the history, and never
panics. -/
theorem navigateDown_safe (s : ConsoleState)
    (hinv : s.history_index < s.history.length) :
    ∃ s', navigateDown s = some s' ∧
      s'.history_index < s'.history.length ∧
      s'.history = s.history := by
  rcases navigateDown_guard_cases s hinv with ⟨h0, heq⟩ | ⟨hg, item, hget, heq⟩
  · exact ⟨s, heq, hinv, rfl⟩
  · refine ⟨_, heq, ?_, rfl⟩
    show s.history_index - 1 < s.history.length
    omega

/-- Submission can only grow the history (eviction fires only after an
insertion made it one too long). -/
theorem submit_history_length_ge (config : ConsoleConfiguration)
    (state : ConsoleState) (hne : state.history ≠ []) :
    state.history.length ≤ (submit config state).1.history.length := by
  by_cases hb : trimIsEmpty state.buf
  · simp [submit, hb]
  · obtain ⟨-, hh, -⟩ := submit_fields config state (by simpa using hb)
    rw [hh]
    have hlen1 : 0 < state.history.length := List.length_pos.mpr hne
    have hlen : (state.history.insertIdx 1 state.buf).length =
        state.history.length + 1 :=
      List.length_insertIdx 1 state.history hlen1
    split <;> simp [hlen, List.length_dropLast]

/-! ## Claim theorems: history navigation invariants -/

/-- C8: submit, navigate-up and navigate-down each preserve the invariant
`history_index < history.length`; navigate-down at cursor 0 is a no-op, and
navigate-up at cursor `history.length - 1` is a no-op. -/
theorem history_cursor_invariant :
    (∀ (config : ConsoleConfiguration) (state : ConsoleState),
        state.history_index < state.history.length →
        (submit config state).1.history_index <
          (submit config state).1.history.length) ∧
    (∀ (state s' : ConsoleState), navigateUp state = some s' →
        state.history_index < state.history.length →
        s'.history_index < s'.history.length) ∧
    (∀ (state s' : ConsoleState), navigateDown state = some s' →
        state.history_index < state.history.length →
        s'.history_index < s'.history.length) ∧
    (∀ state : ConsoleState, state.history_index = 0 →
        navigateDown state = some state) ∧
    (∀ state : ConsoleState,
        state.history_index = state.history.length - 1 →
        navigateUp state = some state) := by
  refine ⟨?_, ?_, ?_, ?_, ?_⟩
  · intro config state hinv
    have hne : state.history ≠ [] := by
      intro hcon
      rw [hcon] at hinv
      simp at hinv
    have hge := submit_history_length_ge config state hne
    have hidx := (submit_frame_effects config state).1
    omega
  · intro state s' heq hinv
    obtain ⟨s'', heq'', hp, -⟩ := navigateUp_safe state hinv
    rw [heq] at heq''
    cases heq''
    exact hp
  · intro state s' heq hinv
    obtain ⟨s'', heq'', hp, -⟩ := navigateDown_safe state hinv
    rw [heq] at heq''
    cases heq''
    exact hp
  · intro state h0
    unfold navigateDown
    rw [if_neg (by omega)]
  · intro state h
    unfold navigateUp
    rw [if_neg (by omega)]

theorem history_cursor_invariant_witness :
    navigateDown ⟨"", [], [""], 0⟩ = some ⟨"", [], [""], 0⟩ ∧
    navigateUp ⟨"x", [], ["", "a"], 1⟩ = some ⟨"x", [], ["", "a"], 1⟩ :=
  ⟨history_cursor_invariant.2.2.2.1 ⟨"", [], [""], 0⟩ rfl,
    history_cursor_invariant.2.2.2.2 ⟨"x", [], ["", "a"], 1⟩ (by decide)⟩

/-- C9: the history ring always holds at least one entry: it is initialized
with the single scratch entry, none of submit / navigate / output drain can
empty it, and under the cursor invariant the navigation lookups always find
an entry (the `unwrap`s never panic, i.e. neither navigation returns
`none`). -/
theorem history_never_empty :
    ConsoleState.default.history = [""] ∧
    (∀ (config : ConsoleConfiguration) (state : ConsoleState),
        state.history ≠ [] → (submit config state).1.history ≠ []) ∧
    (∀ (state s' : ConsoleState), navigateUp state = some s' →
        state.history ≠ [] → s'.history ≠ []) ∧
    (∀ (state s' : ConsoleState), navigateDown state = some s' →
        state.history ≠ [] → s'.history ≠ []) ∧
    (∀ (lines : List String) (state : ConsoleState), state.history ≠ [] →
        (receive_console_line lines state).history ≠ []) ∧
    (∀ state : ConsoleState, state.history_index < state.history.length →
        (navigateUp state).isSome ∧ (navigateDown state).isSome) := by
  refine ⟨rfl, ?_, ?_, ?_, ?_, ?_⟩
  · intro config state hne
    have hge := submit_history_length_ge config state hne
    have hpos : 0 < state.history.length := List.length_pos.mpr hne
    exact List.length_pos.mp (by omega)
  · intro state s' heq hne
    rcases navigateUp_guard_cases state with ⟨-, heq'⟩ | ⟨hg, h1, hh1, item, -, heq'⟩
    · rw [heq] at heq'; cases heq'; exact hne
    · rw [heq] at heq'; cases heq'
      show h1 ≠ []
      have : h1.length = state.history.length := by
        rw [hh1]; split <;> simp
      have hpos : 0 < state.history.length := List.length_pos.mpr hne
      exact List.length_pos.mp (by omega)
  · intro state s' heq hne
    unfold navigateDown at heq
    split at heq
    · split at heq
      · exact absurd heq (by simp)
      · cases heq; exact hne
    · cases heq; exact hne
  · intro lines state hne
    exact hne
  · intro state hinv
    obtain ⟨su, hu, -, -⟩ := navigateUp_safe state hinv
    obtain ⟨sd, hd, -, -⟩ := navigateDown_safe state hinv
    rw [hu, hd]
    exact ⟨rfl, rfl⟩

theorem history_never_empty_witness :
    (submit ⟨[], [], 50, "> "⟩ ⟨"hi", [], [""], 0⟩).1.history ≠ [] ∧
    (navigateUp ⟨"x", [], ["", "a"], 0⟩).isSome ∧
    (navigateDown ⟨"x", [], ["", "a"], 1⟩).isSome :=
  ⟨history_never_empty.2.1 ⟨[], [], 50, "> "⟩ ⟨"hi", [], [""], 0⟩ (by decide),
    (history_never_empty.2.2.2.2.2 ⟨"x", [], ["", "a"], 0⟩ (by decide)).1,
    (history_never_empty.2.2.2.2.2 ⟨"x", [], ["", "a"], 1⟩ (by decide)).2⟩

/-! ## The slot-0 snapshot survives navigation -/

/-- Any single navigation step keeps the snapshot `v` in history slot 0 and,
whenever the cursor is back at 0, the edit buffer shows `v`. -/
theorem navStep_snapshot (b : Bool) (v : String) (t t' : ConsoleState)
    (h : navStep b t = some t')
    (h0 : t.history.get? 0 = some v)
    (hb : t.history_index = 0 → t.buf = v) :
    t'.history.get? 0 = some v ∧ (t'.history_index = 0 → t'.buf = v) := by
  cases b with
  | true =>
    rw [show navStep true t = navigateUp t from rfl] at h
    rcases navigateUp_guard_cases t with ⟨-, heq⟩ | ⟨hg, h1, hh1, item, hget, heq⟩
    · rw [heq] at h
      injection h with h
      subst h
      exact ⟨h0, hb⟩
    · rw [heq] at h
      injection h with h
      subst h
      constructor
      · show h1.get? 0 = some v
        rw [hh1]
        split
        · next hcond =>
          rw [hb hcond.1]
          exact List.get?_set_eq_of_lt _ (by omega)
        · exact h0
      · intro hc
        simp at hc
  | false =>
    rw [show navStep false t = navigateDown t from rfl] at h
    unfold navigateDown at h
    split at h
    · next hgpos =>
      split at h
      · exact absurd h (by simp)
      · next item hget =>
        injection h with h
        subst h
        refine ⟨h0, ?_⟩
        intro hc
        simp only [] at hc ⊢
        have : t.history_index - 1 = 0 := hc
        rw [this] at hget
        rw [h0] at hget
        injection hget with hget
        exact hget.symm
    · injection h with h
      subst h
      exact ⟨h0, hb⟩

/-- The snapshot survives any sequence of navigation steps. -/
theorem navSeq_snapshot (v : String) (ops : List Bool) :
    ∀ t t' : ConsoleState, navSeq ops t = some t' →
      t.history.get? 0 = some v → (t.history_index = 0 → t.buf = v) →
      t'.history.get? 0 = some v ∧ (t'.history_index = 0 → t'.buf = v) := by
  induction ops with
  | nil =>
    intro t t' h h0 hb
    rw [show navSeq [] t = some t from rfl] at h
    injection h with h
    subst h
    exact ⟨h0, hb⟩
  | cons b bs ih =>
    intro t t' h h0 hb
    rw [show navSeq (b :: bs) t = (navStep b t).bind (navSeq bs) from rfl] at h
    rcases Option.bind_eq_some.mp h with ⟨tm, hstep, hrest⟩
    obtain ⟨h0', hb'⟩ := navStep_snapshot b v t tm hstep h0 hb
    exact ih tm t' hrest h0' hb'

/-! ## Claim theorems: the navigate-up round trip -/

/-- C7 as literally stated fails when the history holds only the scratch
slot: from `history_index = 0` with the non-blank edit buffer `"hello"` but
`history = [""]`, navigate-up is a complete no-op, so the edit buffer is not
stored into history slot 0. -/
theorem navigate_up_snapshot_cex :
    trimIsEmpty "hello" = false ∧
    navigateUp ⟨"hello", [], [""], 0⟩ = some ⟨"hello", [], [""], 0⟩ ∧
    (⟨"hello", [], [""], 0⟩ : ConsoleState).history.get? 0 ≠ some "hello" :=
  ⟨by decide, by decide, by decide⟩

/-- C7 (amended): from `history_index = 0` with a non-blank edit buffer,
provided the history holds at least one entry besides the scratch slot (so
navigate-up actually moves), navigate-up stores the edit buffer into history
slot 0, and any subsequent sequence of navigations that brings the cursor
back to 0 restores exactly that buffer text into the edit buffer. -/
theorem navigate_up_roundtrip (s s1 : ConsoleState)
    (hcur : s.history_index = 0) (hbuf : trimIsEmpty s.buf = false)
    (hlen : 2 ≤ s.history.length)
    (hup : navigateUp s = some s1) :
    s1.history.get? 0 = some s.buf ∧
    ∀ (ops : List Bool) (s2 : ConsoleState), navSeq ops s1 = some s2 →
      s2.history_index = 0 → s2.buf = s.buf := by
  rcases navigateUp_guard_cases s with ⟨hg, -⟩ | ⟨hg, h1, hh1, item, hget, heq⟩
  · exact absurd ⟨by omega, by omega⟩ hg
  · rw [heq] at hup
    injection hup with hup
    subst hup
    have hcond : s.history_index = 0 ∧ ¬(trimIsEmpty s.buf = true) :=
      ⟨hcur, by simp [hbuf]⟩
    rw [if_pos hcond] at hh1
    have h0 : h1.get? 0 = some s.buf := by
      rw [hh1]
      exact List.get?_set_eq_of_lt _ (by omega)
    refine ⟨h0, ?_⟩
    intro ops s2 hseq hidx
    refine (navSeq_snapshot s.buf ops _ s2 hseq h0 ?_).2 hidx
    intro hc
    simp at hc

theorem navigate_up_roundtrip_witness :
    (⟨"a", [], ["hello", "a"], 1⟩ : ConsoleState).history.get? 0 =
      some "hello" ∧
    (⟨"hello", [], ["hello", "a"], 0⟩ : ConsoleState).buf = "hello" :=
  have h := navigate_up_roundtrip ⟨"hello", [], ["", "a"], 0⟩
    ⟨"a", [], ["hello", "a"], 1⟩ rfl (by decide) (by decide) (by decide)
  ⟨h.1, h.2 [false] ⟨"hello", [], ["hello", "a"], 0⟩ (by decide) rfl⟩

/-! ## Claim theorems: the toggle detector -/

/-- `console_key_pressed` agrees with the specification's description of a
trigger match: press state is "pressed" and some configured trigger matches
by key code or scan code. -/
theorem console_key_pressed_iff (ki : KeyboardInput)
    (keys : List ToggleConsoleKey) :
    console_key_pressed ki keys = true ↔
      ki.state = .Pressed ∧ ∃ k ∈ keys, matchesTrigger ki k := by
  obtain ⟨sc, kc, st⟩ := ki
  cases st with
  | Released => simp [console_key_pressed, ButtonState.is_pressed]
  | Pressed =>
    simp only [console_key_pressed, ButtonState.is_pressed, Bool.not_true,
      Bool.false_eq_true, if_false, List.any_eq_true]
    constructor
    · rintro ⟨k, hk, hmatch⟩
      refine ⟨by trivial, k, hk, ?_⟩
      cases k with
      | KeyCode ck =>
        cases kc with
        | none => simp at hmatch
        | some pk =>
          simp only [decide_eq_true_eq] at hmatch
          simp [matchesTrigger, hmatch]
      | ScanCode c =>
        simp only [decide_eq_true_eq] at hmatch
        simp [matchesTrigger, hmatch]
    · rintro ⟨-, k, hk, hmatch⟩
      refine ⟨k, hk, ?_⟩
      cases k with
      | KeyCode ck =>
        simp only [matchesTrigger] at hmatch
        simp [hmatch]
      | ScanCode c =>
        simp only [matchesTrigger] at hmatch
        simp [hmatch]

/-- C6: in a pass, the console open flag flips exactly when some keyboard
event is in the "pressed" state and matches a configured trigger by key code
or scan code, and additionally the console is already open (so a matching
press always closes it regardless of keyboard focus) or no other text input
claims keyboard focus (so it opens only then); otherwise the flag is
unchanged. -/
theorem toggle_console_flips_iff (events : List KeyboardInput)
    (keys : List ToggleConsoleKey) (wants_keyboard_input : Bool)
    (console_is_open : Bool) :
    toggle_console events keys wants_keyboard_input console_is_open ≠
        console_is_open ↔
      ((∃ ki ∈ events, ki.state = .Pressed ∧ ∃ k ∈ keys, matchesTrigger ki k) ∧
        (console_is_open = true ∨ wants_keyboard_input = false)) := by
  have hexists :
      ((events.any fun code => console_key_pressed code keys) = true) ↔
        ∃ ki ∈ events, ki.state = .Pressed ∧ ∃ k ∈ keys, matchesTrigger ki k := by
    rw [List.any_eq_true]
    constructor
    · rintro ⟨ki, hki, hc⟩
      exact ⟨ki, hki, (console_key_pressed_iff ki keys).mp hc⟩
    · rintro ⟨ki, hki, hc⟩
      exact ⟨ki, hki, (console_key_pressed_iff ki keys).mpr hc⟩
  rw [← hexists]
  unfold toggle_console
  cases console_is_open <;> cases wants_keyboard_input <;>
    cases hp : (events.any fun code => console_key_pressed code keys) <;>
      simp [hp]

/-! ## Claim theorems: the command handler binding -/

/-- C4: when the first `CommandEntered` event matching the handler's name has
args rejected by the command's argument parser, the binding queues the
rendered diagnostic as a `PrintConsoleLine`, `take()` yields the error (so
the handler can decide to also emit "[failed]"), and the parsed business-
logic value is never produced. -/
theorem get_param_parse_failure {E M T : Type} (name : String)
    (render : E → String) (try_get_matches : List String → Except E M)
    (from_arg_matches : M → Except E T)
    (events : List ConsoleCommandEntered) (ev : ConsoleCommandEntered) (err : E)
    (hfind : events.find? (fun e => name == e.command_name) = some ev)
    (hparse : try_get_matches ev.args = .error err) :
    (get_param name render try_get_matches from_arg_matches events).printed =
      [render err] ∧
    (get_param name render try_get_matches from_arg_matches events).take.1 =
      some (.error err) ∧
    ∀ t : T, (get_param name render try_get_matches from_arg_matches
      events).command ≠ some (.ok t) := by
  unfold get_param
  simp only [hfind, hparse]
  refine ⟨by trivial, by trivial, ?_⟩
  intro t hcontra
  simp at hcontra

theorem get_param_parse_failure_witness :
    (get_param "log" (fun e : String => e)
        (fun _ : List String => Except.error (α := List String) "usage: log")
        (fun m : List String => Except.ok (ε := String) m)
        [⟨"log", ["x"]⟩]).printed = [(fun e : String => e) "usage: log"] ∧
    (get_param "log" (fun e : String => e)
        (fun _ : List String => Except.error (α := List String) "usage: log")
        (fun m : List String => Except.ok (ε := String) m)
        [⟨"log", ["x"]⟩]).take.1 = some (.error "usage: log") ∧
    (get_param "log" (fun e : String => e)
        (fun _ : List String => Except.error (α := List String) "usage: log")
        (fun m : List String => Except.ok (ε := String) m)
        [⟨"log", ["x"]⟩]).command ≠ some (.ok ["v"]) :=
  have h := get_param_parse_failure "log" (fun e : String => e)
    (fun _ : List String => Except.error (α := List String) "usage: log")
    (fun m : List String => Except.ok (ε := String) m)
    [⟨"log", ["x"]⟩] ⟨"log", ["x"]⟩ "usage: log" (by decide) rfl
  ⟨h.1, h.2.1, h.2.2 ["v"]⟩

/-- `find?` over a filter by the same predicate finds the same element. -/
theorem find?_filter_eq_find? {α : Type} (p : α → Bool) (l : List α) :
    (l.filter p).find? p = l.find? p := by
  induction l with
  | nil => rfl
  | cons a l ih =>
    by_cases h : p a
    · simp [List.filter_cons, List.find?_cons, h]
    · simp [List.filter_cons, List.find?_cons, h, ih]

/-- C5: a handler binding consumes only the `CommandEntered` events whose
`command_name` equals its registered name: its result is unchanged if all
non-matching events are discarded, and when no event matches, nothing is
parsed, nothing is printed, and `take()` stays empty. -/
theorem get_param_name_filter {E M T : Type} (name : String)
    (render : E → String) (try_get_matches : List String → Except E M)
    (from_arg_matches : M → Except E T)
    (events : List ConsoleCommandEntered) :
    get_param name render try_get_matches from_arg_matches events =
      get_param name render try_get_matches from_arg_matches
        (events.filter fun e => name == e.command_name) ∧
    ((∀ e ∈ events, e.command_name ≠ name) →
      (get_param name render try_get_matches from_arg_matches
        events).take.1 = none ∧
      (get_param name render try_get_matches from_arg_matches
        events).printed = []) := by
  constructor
  · unfold get_param
    rw [find?_filter_eq_find?]
  · intro hnone
    have hfind : events.find? (fun e => name == e.command_name) = none := by
      rw [List.find?_eq_none]
      intro e he
      simp [(hnone e he).symm]
    unfold get_param
    rw [hfind]
    exact ⟨rfl, rfl⟩

theorem get_param_name_filter_witness :
    (get_param "log" (fun e : String => e)
        (fun _ : List String => Except.error (α := List String) "usage: log")
        (fun m : List String => Except.ok (ε := String) m)
        [⟨"other", ["x"]⟩]).take.1 = none ∧
    (get_param "log" (fun e : String => e)
        (fun _ : List String => Except.error (α := List String) "usage: log")
        (fun m : List String => Except.ok (ε := String) m)
        [⟨"other", ["x"]⟩]).printed = [] :=
  (get_param_name_filter "log" (fun e : String => e)
    (fun _ : List String => Except.error (α := List String) "usage: log")
    (fun m : List String => Except.ok (ε := String) m)
    [⟨"other", ["x"]⟩]).2 (by decide)

end BevyConsole
